import Mathlib

/-
Verification of the `akin` similarity-database subsystem of the iris
repository: a shallow embedding of the Rust sources
(`crates/akin/src/embedding.rs`, `db/pairs.rs`, `db/code_unit.rs`,
`vector_index.rs`, `store.rs`, `hook/matcher.rs`, `src/akin_cli.rs`)
and proofs about them.

Modelling conventions:
* SQLite tables are lists of row structures; primary-key uniqueness is an
  explicit hypothesis where a proof needs it.
* `f32` values are represented by their 32-bit little-endian bit patterns
  (`Nat` below `2^32`) wherever the code only moves them around
  (serialization, storage); floating-point arithmetic performed by
  external libraries (cosine of decoded vectors, usearch distances, the
  hardware square root) is abstracted into oracle function parameters,
  since the verified control flow never inspects the numeric results
  beyond ordering and comparison.
* Similarity/threshold values are `ℚ`.
* Fallible external calls (SQLite statement execution, the Ollama
  embedding service) are oracle parameters returning `Option`.
-/

namespace Iris

/-! ## embedding.rs: byte serialization of embeddings -/

/-- `f32::to_le_bytes` on a bit pattern: the four little-endian bytes. -/
def toLeBytes (x : Nat) : List Nat :=
  [x % 256, x / 256 % 256, x / 256 ^ 2 % 256, x / 256 ^ 3 % 256]

/-- `f32::from_le_bytes`: reassemble a bit pattern from four bytes. -/
def fromLeBytes (b0 b1 b2 b3 : Nat) : Nat :=
  b0 + 256 * b1 + 256 ^ 2 * b2 + 256 ^ 3 * b3

/-- `embedding_to_bytes`: flat-map each element's little-endian bytes. -/
def embedding_to_bytes : List Nat → List Nat
  | [] => []
  | x :: rest => toLeBytes x ++ embedding_to_bytes rest

/-- `chunks_exact(4)`: consecutive complete 4-byte chunks, dropping any
remainder shorter than 4 (the caller only uses it when the length is a
multiple of 4, so nothing is dropped there). -/
def chunksExact4 : List Nat → List (Nat × Nat × Nat × Nat)
  | b0 :: b1 :: b2 :: b3 :: rest => (b0, b1, b2, b3) :: chunksExact4 rest
  | _ => []

/-- `bytes_to_embedding`: `None` when the length is not a multiple of 4,
otherwise the decoded vector. -/
def bytes_to_embedding (bytes : List Nat) : Option (List Nat) :=
  if bytes.length % 4 ≠ 0 then none
  else some ((chunksExact4 bytes).map fun c => fromLeBytes c.1 c.2.1 c.2.2.1 c.2.2.2)

/-! ## embedding.rs: cosine similarity

`cosine_similarity` is f32 arithmetic; we model the exact field
computation over `ℚ` and abstract the square root into a parameter
(IEEE-754 `sqrt` returns `0` exactly on `±0` and a positive value on any
positive input, which is the only property the guard uses). -/

/-- `ndarray` dot product of two equal-length vectors. -/
def dotList (a b : List ℚ) : ℚ := (List.zipWith (· * ·) a b).sum

/-- `cosine_similarity`: dot over the product of norms, with an explicit
zero-norm guard.  `sqrtFn` abstracts the f32 square root. -/
def cosine_similarity (sqrtFn : ℚ → ℚ) (a b : List ℚ) : ℚ :=
  let dot := dotList a b
  let norm_a := sqrtFn (dotList a a)
  let norm_b := sqrtFn (dotList b b)
  if norm_a = 0 ∨ norm_b = 0 then 0 else dot / (norm_a * norm_b)

/-! ## db/pairs.rs: the `similar_pairs` table -/

/-- A row of the `similar_pairs` table (the synthetic `id` column is not
modelled; no verified property mentions it). -/
structure SimilarPairRow where
  unit_a : String
  unit_b : String
  similarity : ℚ
  status : String
  trigger_reason : Option String
deriving Repr, DecidableEq

/-- Does a row carry the `UNIQUE(unit_a, unit_b)` key `(a, b)`? -/
def pairKeyIs (a b : String) (r : SimilarPairRow) : Bool :=
  r.unit_a = a ∧ r.unit_b = b

/-- The `ON CONFLICT ... DO UPDATE` clause: overwrite `similarity` and
`trigger_reason`, keep everything else. -/
def pairConflictUpdate (a b : String) (s : ℚ) (reason : Option String)
    (r : SimilarPairRow) : SimilarPairRow :=
  if pairKeyIs a b r then { r with similarity := s, trigger_reason := reason } else r

/-- One `INSERT ... ON CONFLICT(unit_a, unit_b) DO UPDATE` on an
already-canonical key `(a, b)`. -/
def insertPairCanonical (t : List SimilarPairRow) (a b : String) (s : ℚ)
    (reason : Option String) : List SimilarPairRow :=
  if t.any (pairKeyIs a b) then t.map (pairConflictUpdate a b s reason)
  else t ++ [⟨a, b, s, "new", reason⟩]

/-- `upsert_similar_pair`: canonicalize the pair (`if unit_a < unit_b`)
then insert-or-update. -/
def upsert_similar_pair (t : List SimilarPairRow) (unit_a unit_b : String)
    (similarity : ℚ) (trigger_reason : Option String) : List SimilarPairRow :=
  let a := if unit_a < unit_b then unit_a else unit_b
  let b := if unit_a < unit_b then unit_b else unit_a
  insertPairCanonical t a b similarity trigger_reason

/-- All rows of the table that mention the unordered pair `{a, b}`
(either orientation). -/
def pairRowsFor (t : List SimilarPairRow) (a b : String) : List SimilarPairRow :=
  t.filter fun r => (r.unit_a = a ∧ r.unit_b = b) ∨ (r.unit_a = b ∧ r.unit_b = a)

/-- The insert loop of `batch_upsert_similar_pairs`, inside the open
transaction.  `err` is the SQLite failure oracle for one prepared-statement
execution (`none` = success); on `some e` the loop aborts with the error.
Returns the table as mutated so far together with the running count. -/
def batchInsertLoop (err : List SimilarPairRow → String → String → ℚ → Option String)
    (reason : Option String) :
    List SimilarPairRow → List (String × String × ℚ) → Nat →
    Except String (List SimilarPairRow × Nat)
  | t, [], count => .ok (t, count)
  | t, (unit_a, unit_b, similarity) :: rest, count =>
    let a := if unit_a < unit_b then unit_a else unit_b
    let b := if unit_a < unit_b then unit_b else unit_a
    match err t a b similarity with
    | some e => .error e
    | none => batchInsertLoop err reason (insertPairCanonical t a b similarity reason) rest (count + 1)

/-- `batch_upsert_similar_pairs`: `BEGIN TRANSACTION`, run the insert
loop, `COMMIT` on success and `ROLLBACK` on error.  The first component is
the table visible to the caller afterwards: the rollback restores the
original table. -/
def batch_upsert_similar_pairs
    (err : List SimilarPairRow → String → String → ℚ → Option String)
    (t : List SimilarPairRow) (pairs : List (String × String × ℚ))
    (reason : Option String) : List SimilarPairRow × Except String Nat :=
  match batchInsertLoop err reason t pairs 0 with
  | .ok (t', count) => (t', .ok count)
  | .error e => (t, .error e)

/-! ## db/code_unit.rs: the `code_units` table -/

/-- A row of `code_units` / a `CodeUnitRecord`.  `embedding` holds the raw
blob bytes. -/
structure CodeUnitRow where
  qualified_name : String
  project_id : Int
  file_path : String
  kind : String
  range_start : Nat
  range_end : Nat
  content_hash : String
  structure_hash : String
  embedding : Option (List Nat)
  group_id : Option Int
deriving Repr, DecidableEq

/-- The `group_id` inheritance query: the first stored row (scan order)
with the same `structure_hash` and a different `qualified_name`; its
(possibly null) `group_id`, flattened. -/
def inheritedGroupId (t : List CodeUnitRow) (r : CodeUnitRow) : Option Int :=
  (t.find? fun u => u.structure_hash = r.structure_hash ∧
    u.qualified_name ≠ r.qualified_name).bind (·.group_id)

/-- The `ON CONFLICT(qualified_name) DO UPDATE` clause.  `gid` is the
`group_id` value of the `VALUES` tuple (`excluded.group_id`).  The stored
`project_id` is not in the update list and is kept. -/
def codeUnitConflictUpdate (r : CodeUnitRow) (gid : Option Int)
    (u : CodeUnitRow) : CodeUnitRow :=
  if u.qualified_name = r.qualified_name then
    { u with
      file_path := r.file_path
      kind := r.kind
      range_start := r.range_start
      range_end := r.range_end
      content_hash := r.content_hash
      structure_hash := r.structure_hash
      embedding := r.embedding.or u.embedding
      group_id := u.group_id.or gid }
  else u

/-- `upsert_code_unit`: compute the inherited `group_id`, then
`INSERT ... ON CONFLICT(qualified_name) DO UPDATE`.  The inserted
`group_id` value is `inherited_group_id.or(record.group_id)`. -/
def upsert_code_unit (t : List CodeUnitRow) (r : CodeUnitRow) : List CodeUnitRow :=
  let gid := (inheritedGroupId t r).or r.group_id
  if t.any (fun u => u.qualified_name = r.qualified_name) then
    t.map (codeUnitConflictUpdate r gid)
  else
    t ++ [{ r with group_id := gid }]

/-- `get_code_unit`: primary-key lookup. -/
def get_code_unit (t : List CodeUnitRow) (qualified_name : String) : Option CodeUnitRow :=
  t.find? fun u => u.qualified_name = qualified_name

/-- Primary-key invariant of `code_units`: pairwise distinct
`qualified_name`s. -/
def codeUnitsNodupKeys (t : List CodeUnitRow) : Prop :=
  (t.map (·.qualified_name)).Nodup

/-! ## db/pairs.rs: `get_similar_pairs` (join + filters) -/

/-- The `ua.project_id = ?` filter of `get_similar_pairs`, against the
join partner of `unit_a`. -/
def joinProjectOk (units : List CodeUnitRow) (project_id : Option Int)
    (p : SimilarPairRow) : Bool :=
  match project_id, get_code_unit units p.unit_a with
  | none, _ => true
  | some pid, some ua => ua.project_id = pid
  | some _, none => false

/-- `get_similar_pairs`: inner-joins both pair endpoints against
`code_units` (a pair whose endpoint is missing is dropped), and filters by
minimum similarity, optional project and optional status.  The
`ORDER BY similarity DESC` is irrelevant to the verified callers, which
consume the result as a set. -/
def get_similar_pairs (units : List CodeUnitRow) (t : List SimilarPairRow)
    (project_id : Option Int) (status : Option String)
    (min_similarity : ℚ) : List SimilarPairRow :=
  t.filter fun p =>
    decide (min_similarity ≤ p.similarity) &&
    (get_code_unit units p.unit_a).isSome &&
    (get_code_unit units p.unit_b).isSome &&
    joinProjectOk units project_id p &&
    (match status with
     | none => true
     | some s => decide (p.status = s))

/-! ## vector_index.rs -/

inductive VectorIndexError where
  | Usearch (msg : String)
  | Io (msg : String)
  | DimensionMismatch (expected got : Nat)
deriving Repr, DecidableEq

/-- A usearch hit: vector id and cosine distance. -/
structure SearchResult where
  id : Nat
  distance : ℚ
deriving Repr, DecidableEq

/-- `SearchResult::similarity`: `1 - distance`. -/
def SearchResult.similarity (r : SearchResult) : ℚ := 1 - r.distance

/-- Stable insertion of `x` into a list sorted by `le` (stability: `x`
goes before the first element it compares `le` to, hence after earlier
equals were placed). -/
def insertSorted (le : α → α → Bool) (x : α) : List α → List α
  | [] => [x]
  | y :: ys => if le x y then x :: y :: ys else y :: insertSorted le x ys

/-- Stable sort by `le` — models Rust's stable `sort_by` / the sorted
output of the usearch library (only the sorted stable result matters, not
the algorithm). -/
def sortStable (le : α → α → Bool) : List α → List α
  | [] => []
  | x :: xs => insertSorted le x (sortStable le xs)

/-- The vector index: the configured dimension count plus the entries held
by the underlying usearch structure (id, stored vector of f32 bit
patterns). -/
structure VectorIndex where
  dimensions : Nat
  entries : List (Nat × List Nat)
deriving Repr, DecidableEq

/-- `VectorIndex::add`: dimension guard before the underlying insert.
Returns the index state afterwards together with the error, making the
untouched-on-error behaviour explicit. -/
def VectorIndex.add (idx : VectorIndex) (id : Nat) (vector : List Nat) :
    VectorIndex × Option VectorIndexError :=
  if vector.length ≠ idx.dimensions then
    (idx, some (.DimensionMismatch idx.dimensions vector.length))
  else
    ({ idx with entries := idx.entries ++ [(id, vector)] }, none)

/-- `VectorIndex::search`: dimension guard, then the k nearest entries by
cosine distance.  `dist` abstracts the library's f32 cosine distance on
stored bit-pattern vectors. -/
def VectorIndex.search (dist : List Nat → List Nat → ℚ) (idx : VectorIndex)
    (query : List Nat) (k : Nat) : Except VectorIndexError (List SearchResult) :=
  if query.length ≠ idx.dimensions then
    .error (.DimensionMismatch idx.dimensions query.length)
  else
    .ok ((sortStable (fun r s => r.distance ≤ s.distance)
      (idx.entries.map fun e => ⟨e.1, dist query e.2⟩)).take k)

/-- `VectorIndex::search_filtered`: dimension guard, then the k nearest
entries passing the id predicate. -/
def VectorIndex.search_filtered (dist : List Nat → List Nat → ℚ)
    (idx : VectorIndex) (query : List Nat) (k : Nat) (keep : Nat → Bool) :
    Except VectorIndexError (List SearchResult) :=
  if query.length ≠ idx.dimensions then
    .error (.DimensionMismatch idx.dimensions query.length)
  else
    .ok ((sortStable (fun r s => r.distance ≤ s.distance)
      ((idx.entries.filter fun e => keep e.1).map fun e => ⟨e.1, dist query e.2⟩)).take k)

/-! ## store.rs -/

inductive StoreError where
  | Database (msg : String)
  | VectorIndexErr (e : VectorIndexError)
  | Io (msg : String)
  | VectorIndexNotInitialized
deriving Repr, DecidableEq

/-- An ANN search hit as surfaced by the store. -/
structure SimilarUnit where
  qualified_name : String
  file_path : String
  range_start : Nat
  project_id : Int
  similarity : ℚ
deriving Repr, DecidableEq

/-- The store: database tables, the optional vector index, and the
id ↔ qualified-name maps. -/
structure Store where
  units : List CodeUnitRow
  pairs : List SimilarPairRow
  vector_index : Option VectorIndex
  id_to_name : List (Nat × String)
deriving Repr, DecidableEq

/-- `id_to_name` lookup. -/
def lookupName (m : List (Nat × String)) (id : Nat) : Option String :=
  (m.find? fun e => e.1 = id).map (·.2)

/-- `Store::search_similar_filtered`: wrap the name predicate into an id
predicate, run the filtered ANN search, then keep hits above the
threshold whose id resolves to a stored code unit. -/
def Store.search_similar_filtered (dist : List Nat → List Nat → ℚ)
    (store : Store) (query_embedding : List Nat) (k : Nat) (threshold : ℚ)
    (keep : String → Bool) : Except StoreError (List SimilarUnit) :=
  match store.vector_index with
  | none => .error .VectorIndexNotInitialized
  | some idx =>
    let id_filter : Nat → Bool := fun id =>
      match lookupName store.id_to_name id with
      | some name => keep name
      | none => false
    match idx.search_filtered dist query_embedding k id_filter with
    | .error e => .error (.VectorIndexErr e)
    | .ok results =>
      .ok (results.filterMap fun r =>
        if r.similarity < threshold then none
        else
          match lookupName store.id_to_name r.id with
          | none => none
          | some name =>
            match get_code_unit store.units name with
            | some unit => some ⟨unit.qualified_name, unit.file_path,
                unit.range_start, unit.project_id, r.similarity⟩
            | none => none)

/-! ## hook/matcher.rs -/

inductive HookScope where
  | All
  | Project
  | CrossOnly
deriving Repr, DecidableEq

/-- The fields of an incoming `lsp::CodeUnit` the matcher reads. -/
structure QueryUnit where
  qualified_name : String
  body : String
  file_path : String
  range_start : Nat
deriving Repr, DecidableEq

structure SimilarityMatch where
  current_name : String
  current_file : String
  current_line : Nat
  similar_name : String
  similar_file : String
  similar_line : Nat
  similarity : ℚ
  is_cross_project : Bool
deriving Repr, DecidableEq

/-- Both orientations of each pair — the two-directional ignored set. -/
def twoDirectional : List SimilarPairRow → List (String × String)
  | [] => []
  | p :: rest => (p.unit_a, p.unit_b) :: (p.unit_b, p.unit_a) :: twoDirectional rest

/-- The ignored-pair set the matchers load up front:
`get_similar_pairs(None, Some(Ignored), 0.0)`, both orientations. -/
def ignoredPairList (units : List CodeUnitRow) (pairs : List SimilarPairRow) :
    List (String × String) :=
  twoDirectional (get_similar_pairs units pairs none (some "ignored") 0)

/-- The scope-dependent unit selection of `find_similar_units`
(`get_code_units_by_projects`). -/
def matcherDbUnits (units_table : List CodeUnitRow)
    (current_project_id : Option Int) (scope : HookScope) : List CodeUnitRow :=
  match scope, current_project_id with
  | HookScope.Project, some pid => units_table.filter fun u => u.project_id = pid
  | _, _ => units_table

/-- The units whose stored blob decodes, paired with the decoded vector. -/
def dbEmbeddingsOf (units : List CodeUnitRow) : List (CodeUnitRow × List Nat) :=
  units.filterMap fun u => (u.embedding.bind bytes_to_embedding).map ((u, ·))

/-- The per-candidate body of the brute-force loop: skip self, skip
ignored pairs, skip same-project under CrossOnly, then keep the candidate
when the similarity clears the threshold. -/
def bruteForceCandidate (sim : List Nat → List Nat → ℚ)
    (ignored : List (String × String)) (current_project_id : Option Int)
    (scope : HookScope) (threshold : ℚ) (unit : QueryUnit) (qemb : List Nat)
    (du : CodeUnitRow × List Nat) : Option SimilarityMatch :=
  if du.1.qualified_name = unit.qualified_name then none
  else if (unit.qualified_name, du.1.qualified_name) ∈ ignored then none
  else if scope = HookScope.CrossOnly ∧
      current_project_id = some du.1.project_id then none
  else if threshold ≤ sim qemb du.2 then
    some { current_name := unit.qualified_name
           current_file := unit.file_path
           current_line := unit.range_start
           similar_name := du.1.qualified_name
           similar_file := du.1.file_path
           similar_line := du.1.range_start
           similarity := sim qemb du.2
           is_cross_project :=
             match current_project_id with
             | some pid => du.1.project_id ≠ pid
             | none => true }
  else none

/-- `find_similar_units` (brute-force matcher).  `embed` is the Ollama
embedding oracle on the unit body (`none` = request failed, unit skipped);
`sim` abstracts f32 `cosine_similarity` on decoded stored vectors;
`current_project_id` is the result of the `get_project_by_path` lookup on
the hook's cwd. -/
def find_similar_units (embed : String → Option (List Nat))
    (sim : List Nat → List Nat → ℚ)
    (units_table : List CodeUnitRow) (pairs_table : List SimilarPairRow)
    (queryUnits : List QueryUnit) (current_project_id : Option Int)
    (scope : HookScope) (threshold : ℚ) (max_results : Nat) :
    List SimilarityMatch :=
  let db_units := matcherDbUnits units_table current_project_id scope
  let ignored := ignoredPairList units_table pairs_table
  let db_embeddings := dbEmbeddingsOf db_units
  if db_embeddings.isEmpty then []
  else
    queryUnits.flatMap fun unit =>
      match embed unit.body with
      | none => []
      | some qemb =>
        (sortStable (fun x y => y.similarity ≤ x.similarity)
          (db_embeddings.filterMap
            (bruteForceCandidate sim ignored current_project_id scope
              threshold unit qemb))).take max_results

/-- The self / ignored name predicate the ANN matcher pushes into the
filtered search. -/
def annKeep (ignored : List (String × String)) (unit : QueryUnit) :
    String → Bool := fun name =>
  if name = unit.qualified_name then false
  else if (unit.qualified_name, name) ∈ ignored then false
  else true

/-- The per-hit body of the ANN loop: scope filtering, then the match
record. -/
def annCandidate (current_project_id : Option Int) (scope : HookScope)
    (unit : QueryUnit) (su : SimilarUnit) : Option SimilarityMatch :=
  if scope = HookScope.CrossOnly ∧
      current_project_id = some su.project_id then none
  else if scope = HookScope.Project ∧ current_project_id.isSome ∧
      current_project_id ≠ some su.project_id then none
  else
    some { current_name := unit.qualified_name
           current_file := unit.file_path
           current_line := unit.range_start
           similar_name := su.qualified_name
           similar_file := su.file_path
           similar_line := su.range_start
           similarity := su.similarity
           is_cross_project :=
             match current_project_id with
             | some pid => su.project_id ≠ pid
             | none => true }

/-- `find_similar_units_ann` (ANN matcher): per query unit, embed, then a
filtered ANN search with the self / ignored predicate pushed into the
index filter, then scope filtering and the `max_results` cutoff. -/
def find_similar_units_ann (embed : String → Option (List Nat))
    (dist : List Nat → List Nat → ℚ) (store : Store)
    (queryUnits : List QueryUnit) (current_project_id : Option Int)
    (scope : HookScope) (threshold : ℚ) (max_results : Nat) :
    List SimilarityMatch :=
  let ignored := ignoredPairList store.units store.pairs
  queryUnits.flatMap fun unit =>
    match embed unit.body with
    | none => []
    | some qemb =>
      let k := Nat.max (max_results * 3) 50
      match Store.search_similar_filtered dist store qemb k threshold
        (annKeep ignored unit) with
      | .error _ => []
      | .ok similar_units =>
        (similar_units.filterMap
          (annCandidate current_project_id scope unit)).take max_results

/-! ## akin_cli.rs: the pair-collection loop of `cmd_scan` -/

/-- Canonical ordering of a pair of qualified names. -/
def canonPair (x y : String) : String × String :=
  if x < y then (x, y) else (y, x)

/-- The `name_to_project` map built from the loaded units (qualified_name
is the primary key, so first match is the map entry). -/
def scanNameToProject (units : List CodeUnitRow) (name : String) : Option Int :=
  (units.find? fun u => u.qualified_name = name).map (·.project_id)

/-- `cmd_scan` keeps the units whose stored embedding decodes. -/
def unitsWithValidEmbedding (units : List CodeUnitRow) : List CodeUnitRow :=
  units.filter fun u => (u.embedding.bind bytes_to_embedding).isSome

/-- The hit-processing loop of `cmd_scan`: discard self matches, discard
same-project matches under `cross_only`, canonicalize, deduplicate against
the seen set. -/
def cmdScanCollect (unitsWithEmb allUnits : List CodeUnitRow) (crossOnly : Bool) :
    List (String × String) → List (Nat × String × ℚ) → List (String × String × ℚ)
  | _, [] => []
  | seen, (query_idx, similar_name, similarity) :: rest =>
    match unitsWithEmb.get? query_idx with
    | none => cmdScanCollect unitsWithEmb allUnits crossOnly seen rest
    | some qu =>
      if similar_name = qu.qualified_name then
        cmdScanCollect unitsWithEmb allUnits crossOnly seen rest
      else if crossOnly ∧ scanNameToProject allUnits similar_name = some qu.project_id then
        cmdScanCollect unitsWithEmb allUnits crossOnly seen rest
      else
        let pair := canonPair qu.qualified_name similar_name
        if pair ∈ seen then cmdScanCollect unitsWithEmb allUnits crossOnly seen rest
        else (pair.1, pair.2, similarity) ::
          cmdScanCollect unitsWithEmb allUnits crossOnly (pair :: seen) rest

/-- The `new_pairs` list `cmd_scan` hands to `batch_upsert_similar_pairs`. -/
def cmd_scan_new_pairs (allUnits : List CodeUnitRow) (crossOnly : Bool)
    (searchResults : List (Nat × String × ℚ)) : List (String × String × ℚ) :=
  cmdScanCollect (unitsWithValidEmbedding allUnits) allUnits crossOnly [] searchResults

/-! ## Helper lemmas: byte codec -/

theorem embedding_to_bytes_length (v : List Nat) :
    (embedding_to_bytes v).length = 4 * v.length := by
  induction v with
  | nil => rfl
  | cons x xs ih =>
    simp only [embedding_to_bytes, toLeBytes, List.length_append, List.length_cons,
      List.length_nil, ih]
    omega

theorem fromLeBytes_toLeBytes (x : Nat) (h : x < 2 ^ 32) :
    fromLeBytes (x % 256) (x / 256 % 256) (x / 256 ^ 2 % 256) (x / 256 ^ 3 % 256) = x := by
  unfold fromLeBytes
  norm_num
  omega

theorem chunksExact4_length (b : List Nat) :
    (chunksExact4 b).length = b.length / 4 := by
  induction b using chunksExact4.induct with
  | case1 b0 b1 b2 b3 rest ih =>
    simp only [chunksExact4, List.length_cons, ih]
    omega
  | case2 t h =>
    rcases t with _ | ⟨a, _ | ⟨b, _ | ⟨c, _ | ⟨d, r⟩⟩⟩⟩
    · rfl
    · simp [chunksExact4]
    · simp [chunksExact4]
    · simp [chunksExact4]
    · exact absurd rfl (h a b c d r)

theorem chunksExact4_getD (b : List Nat) (i : Nat)
    (hi : i < (chunksExact4 b).length) :
    (chunksExact4 b).getD i default =
      (b.getD (4 * i) 0, b.getD (4 * i + 1) 0, b.getD (4 * i + 2) 0,
        b.getD (4 * i + 3) 0) := by
  induction b using chunksExact4.induct generalizing i with
  | case1 b0 b1 b2 b3 rest ih =>
    cases i with
    | zero => rfl
    | succ j =>
      have hj : j < (chunksExact4 rest).length := by
        simpa [chunksExact4] using hi
      show (chunksExact4 rest).getD j default = _
      rw [ih j hj]
      rw [show 4 * (j + 1) = 4 * j + 1 + 1 + 1 + 1 by omega]
      simp [List.getD_cons_succ]
  | case2 t h =>
    rcases t with _ | ⟨a, _ | ⟨b, _ | ⟨c, _ | ⟨d, r⟩⟩⟩⟩ <;>
      first
        | exact absurd rfl (h _ _ _ _ _)
        | (exfalso; simp [chunksExact4] at hi)

/-- C5 (claim): decoding the little-endian serialization of any vector of
f32 bit patterns gives back the vector, elementwise, at every length. -/
theorem bytes_to_embedding_embedding_to_bytes (v : List Nat)
    (h : ∀ x ∈ v, x < 2 ^ 32) :
    bytes_to_embedding (embedding_to_bytes v) = some v := by
  induction v with
  | nil => rfl
  | cons x xs ih =>
    have hx : x < 2 ^ 32 := h x (List.mem_cons_self x xs)
    have hxs : ∀ y ∈ xs, y < 2 ^ 32 := fun y hy => h y (List.mem_cons_of_mem x hy)
    have hlen : (embedding_to_bytes xs).length % 4 = 0 := by
      rw [embedding_to_bytes_length]; omega
    have ihv := ih hxs
    unfold bytes_to_embedding at ihv
    rw [if_neg (by omega)] at ihv
    have hmap := Option.some.inj ihv
    show bytes_to_embedding
      (toLeBytes x ++ embedding_to_bytes xs) = some (x :: xs)
    unfold bytes_to_embedding
    rw [if_neg (by
      simp only [List.length_append, toLeBytes, List.length_cons, List.length_nil]
      omega)]
    show some (((x % 256, x / 256 % 256, x / 256 ^ 2 % 256, x / 256 ^ 3 % 256) ::
      chunksExact4 (embedding_to_bytes xs)).map
        fun c => fromLeBytes c.1 c.2.1 c.2.2.1 c.2.2.2) = some (x :: xs)
    simp only [List.map_cons, hmap]
    rw [fromLeBytes_toLeBytes x hx]

/-- C6 (claim): `bytes_to_embedding` returns `none` exactly when the
length is not a multiple of 4; otherwise a vector of length `len / 4`
whose `i`-th element is the little-endian value of bytes
`4i, 4i+1, 4i+2, 4i+3`. -/
theorem bytes_to_embedding_spec (b : List Nat) :
    (bytes_to_embedding b = none ↔ b.length % 4 ≠ 0) ∧
    (b.length % 4 = 0 →
      ∃ v, bytes_to_embedding b = some v ∧ v.length = b.length / 4 ∧
        ∀ i, i < v.length →
          v.getD i 0 = fromLeBytes (b.getD (4 * i) 0) (b.getD (4 * i + 1) 0)
            (b.getD (4 * i + 2) 0) (b.getD (4 * i + 3) 0)) := by
  constructor
  · unfold bytes_to_embedding
    by_cases h : b.length % 4 = 0 <;> simp [h]
  · intro h
    refine ⟨(chunksExact4 b).map fun c => fromLeBytes c.1 c.2.1 c.2.2.1 c.2.2.2,
      ?_, ?_, ?_⟩
    · unfold bytes_to_embedding
      rw [if_neg (by omega)]
    · simp [chunksExact4_length]
    · intro i hi
      have hi' : i < (chunksExact4 b).length := by simpa using hi
      rw [List.getD_eq_getElem _ _ hi, List.getElem_map,
        ← List.getD_eq_getElem _ default hi', chunksExact4_getD b i hi']

/-- Witness for C6: a 4-byte buffer decodes to the single little-endian
value of its bytes. -/
theorem bytes_to_embedding_spec_witness :
    ∃ v, bytes_to_embedding [0, 0, 128, 63] = some v ∧
      v.length = ([0, 0, 128, 63] : List Nat).length / 4 ∧
      ∀ i, i < v.length →
        v.getD i 0 = fromLeBytes (([0, 0, 128, 63] : List Nat).getD (4 * i) 0)
          (([0, 0, 128, 63] : List Nat).getD (4 * i + 1) 0)
          (([0, 0, 128, 63] : List Nat).getD (4 * i + 2) 0)
          (([0, 0, 128, 63] : List Nat).getD (4 * i + 3) 0) :=
  (bytes_to_embedding_spec [0, 0, 128, 63]).2 (by decide)

/-! ## Helper lemmas: cosine similarity -/

theorem dotList_self_nonneg (a : List ℚ) : 0 ≤ dotList a a := by
  induction a with
  | nil => simp [dotList]
  | cons x xs ih =>
    show 0 ≤ (List.zipWith (· * ·) (x :: xs) (x :: xs)).sum
    simp only [List.zipWith_cons_cons, List.sum_cons]
    exact add_nonneg (mul_self_nonneg x) ih

theorem dotList_nil_left (b : List ℚ) : dotList [] b = 0 := by
  simp [dotList]

theorem dotList_replicate_zero (n : Nat) : dotList (List.replicate n 0) (List.replicate n 0) = 0 := by
  induction n with
  | zero => simp [dotList]
  | succ m ih =>
    show (List.zipWith (· * ·) (0 :: List.replicate m (0:ℚ)) (0 :: List.replicate m 0)).sum = 0
    simp only [List.zipWith_cons_cons, List.sum_cons, mul_zero, zero_add]
    exact ih

/-- C10 (claim): whenever either computed norm is zero — in particular on
an empty or all-zero vector — `cosine_similarity` returns exactly `0` and
performs no division; otherwise it returns the dot product divided by the
(nonzero) product of the two norms.  `sqrtFn` is any function with the
IEEE-754 property that the square root of a nonnegative value is zero
exactly on zero. -/
theorem cosine_similarity_spec (sqrtFn : ℚ → ℚ)
    (hsqrt : ∀ x : ℚ, 0 ≤ x → (sqrtFn x = 0 ↔ x = 0)) (a b : List ℚ) (n : Nat) :
    ((dotList a a = 0 ∨ dotList b b = 0) → cosine_similarity sqrtFn a b = 0) ∧
    (dotList a a ≠ 0 → dotList b b ≠ 0 →
      sqrtFn (dotList a a) * sqrtFn (dotList b b) ≠ 0 ∧
      cosine_similarity sqrtFn a b =
        dotList a b / (sqrtFn (dotList a a) * sqrtFn (dotList b b))) ∧
    cosine_similarity sqrtFn [] b = 0 ∧
    cosine_similarity sqrtFn (List.replicate n 0) b = 0 := by
  have zeroCase : ∀ x y : List ℚ, (dotList x x = 0 ∨ dotList y y = 0) →
      cosine_similarity sqrtFn x y = 0 := by
    intro x y h
    have hz : sqrtFn (dotList x x) = 0 ∨ sqrtFn (dotList y y) = 0 := by
      cases h with
      | inl h => exact Or.inl ((hsqrt _ (dotList_self_nonneg x)).mpr h)
      | inr h => exact Or.inr ((hsqrt _ (dotList_self_nonneg y)).mpr h)
    unfold cosine_similarity
    simp only [hz, if_pos]
  refine ⟨zeroCase a b, ?_, zeroCase [] b (Or.inl (dotList_nil_left [])),
    zeroCase _ b (Or.inl (dotList_replicate_zero n))⟩
  intro ha hb
  have ha' : sqrtFn (dotList a a) ≠ 0 :=
    fun hz => ha ((hsqrt _ (dotList_self_nonneg a)).mp hz)
  have hb' : sqrtFn (dotList b b) ≠ 0 :=
    fun hz => hb ((hsqrt _ (dotList_self_nonneg b)).mp hz)
  refine ⟨mul_ne_zero ha' hb', ?_⟩
  unfold cosine_similarity
  rw [if_neg (by push_neg; exact ⟨ha', hb'⟩)]

/-- Witness for C10 at `sqrtFn = id`, `a = [0]`, `b = [1]`. -/
theorem cosine_similarity_spec_witness :
    cosine_similarity id [(0 : ℚ)] [1] = 0 :=
  (cosine_similarity_spec id (fun x _ => by simp) [0] [1] 0).1
    (Or.inl (by norm_num [dotList]))

/-- Witness for C5 at a concrete three-element vector. -/
theorem bytes_to_embedding_embedding_to_bytes_witness :
    bytes_to_embedding (embedding_to_bytes [1065353216, 0, 3212836864]) =
      some [1065353216, 0, 3212836864] :=
  bytes_to_embedding_embedding_to_bytes [1065353216, 0, 3212836864] (by decide)

/-- C7 (claim): on an input vector whose length differs from the
configured dimensions, `add`, `search` and `search_filtered` all fail with
`DimensionMismatch {expected = dimensions, got = input length}`, and `add`
leaves the index contents unchanged. -/
theorem vector_index_dimension_mismatch (dist : List Nat → List Nat → ℚ)
    (idx : VectorIndex) (id : Nat) (vector query : List Nat) (k : Nat)
    (keep : Nat → Bool) (hv : vector.length ≠ idx.dimensions)
    (hq : query.length ≠ idx.dimensions) :
    idx.add id vector =
      (idx, some (.DimensionMismatch idx.dimensions vector.length)) ∧
    idx.search dist query k =
      .error (.DimensionMismatch idx.dimensions query.length) ∧
    idx.search_filtered dist query k keep =
      .error (.DimensionMismatch idx.dimensions query.length) := by
  unfold VectorIndex.add VectorIndex.search VectorIndex.search_filtered
  rw [if_pos hv, if_pos hq, if_pos hq]
  exact ⟨rfl, rfl, rfl⟩

/-- Witness for C7: a 2-dimensional index rejects a 3-element vector. -/
theorem vector_index_dimension_mismatch_witness :
    (VectorIndex.mk 2 []).add 7 [1, 2, 3] =
      (VectorIndex.mk 2 [], some (.DimensionMismatch 2 3)) ∧
    (VectorIndex.mk 2 []).search (fun _ _ => 0) [1, 2, 3] 5 =
      .error (.DimensionMismatch 2 3) ∧
    (VectorIndex.mk 2 []).search_filtered (fun _ _ => 0) [1, 2, 3] 5 (fun _ => true) =
      .error (.DimensionMismatch 2 3) :=
  vector_index_dimension_mismatch (fun _ _ => 0) (VectorIndex.mk 2 []) 7
    [1, 2, 3] [1, 2, 3] 5 (fun _ => true) (by decide) (by decide)

/-! ## Helper lemmas: similar_pairs upserts -/

theorem pairConflictUpdate_unit_a (a b : String) (s : ℚ) (reason : Option String)
    (r : SimilarPairRow) : (pairConflictUpdate a b s reason r).unit_a = r.unit_a := by
  unfold pairConflictUpdate
  split <;> rfl

theorem pairConflictUpdate_unit_b (a b : String) (s : ℚ) (reason : Option String)
    (r : SimilarPairRow) : (pairConflictUpdate a b s reason r).unit_b = r.unit_b := by
  unfold pairConflictUpdate
  split <;> rfl

theorem mem_pairRowsFor (t : List SimilarPairRow) (a b : String) (r : SimilarPairRow) :
    r ∈ pairRowsFor t a b ↔
      r ∈ t ∧ ((r.unit_a = a ∧ r.unit_b = b) ∨ (r.unit_a = b ∧ r.unit_b = a)) := by
  simp [pairRowsFor, List.mem_filter]

theorem pairRowsFor_comm (t : List SimilarPairRow) (a b : String) :
    pairRowsFor t a b = pairRowsFor t b a := by
  unfold pairRowsFor
  congr 1
  funext r
  simp only [decide_eq_decide]
  tauto

theorem pairRowsFor_append (t : List SimilarPairRow) (x : SimilarPairRow)
    (a b : String) :
    pairRowsFor (t ++ [x]) a b =
      pairRowsFor t a b ++ pairRowsFor [x] a b := by
  unfold pairRowsFor
  exact List.filter_append t [x]

theorem pairRowsFor_map_update (t : List SimilarPairRow) (u v a b : String)
    (s : ℚ) (reason : Option String) :
    pairRowsFor (t.map (pairConflictUpdate u v s reason)) a b =
      (pairRowsFor t a b).map (pairConflictUpdate u v s reason) := by
  unfold pairRowsFor
  rw [List.filter_map]
  refine congrArg (List.map _) ?_
  apply List.filter_congr
  intro r _
  simp [Function.comp, pairConflictUpdate_unit_a, pairConflictUpdate_unit_b]

/-- Two consecutive canonical-key upserts of the same pair leave exactly
one row for the pair: key `(k1, k2)`, similarity `s2`, trigger reason
`r2` (the status is `"new"` for a fresh pair, else whatever it was). -/
theorem insertPair_twice (t : List SimilarPairRow) (k1 k2 : String)
    (s1 s2 : ℚ) (r1 r2 : Option String)
    (hcanon : ∀ r ∈ t,
      ((r.unit_a = k1 ∧ r.unit_b = k2) ∨ (r.unit_a = k2 ∧ r.unit_b = k1)) →
        (r.unit_a = k1 ∧ r.unit_b = k2))
    (hlen : (pairRowsFor t k1 k2).length ≤ 1) :
    ∃ st, pairRowsFor
        (insertPairCanonical (insertPairCanonical t k1 k2 s1 r1) k1 k2 s2 r2)
        k1 k2 = [⟨k1, k2, s2, st, r2⟩] := by
  by_cases hany : t.any (pairKeyIs k1 k2)
  · -- conflict path on the first upsert: some row already has key (k1, k2)
    obtain ⟨x, hxt, hxkey⟩ := List.any_eq_true.mp hany
    have hxkey' : x.unit_a = k1 ∧ x.unit_b = k2 := by
      simpa [pairKeyIs] using hxkey
    have hxmem : x ∈ pairRowsFor t k1 k2 :=
      (mem_pairRowsFor t k1 k2 x).mpr ⟨hxt, Or.inl hxkey'⟩
    have hrows : pairRowsFor t k1 k2 = [x] := by
      rcases hrw : pairRowsFor t k1 k2 with _ | ⟨y, _ | ⟨z, l⟩⟩
      · rw [hrw] at hxmem; simp at hxmem
      · rw [hrw] at hxmem
        simp only [List.mem_singleton] at hxmem
        rw [hxmem]
      · rw [hrw] at hlen; simp at hlen
    refine ⟨x.status, ?_⟩
    have h1 : insertPairCanonical t k1 k2 s1 r1 =
        t.map (pairConflictUpdate k1 k2 s1 r1) := by
      unfold insertPairCanonical
      rw [if_pos hany]
    have hany1 : (t.map (pairConflictUpdate k1 k2 s1 r1)).any (pairKeyIs k1 k2) := by
      refine List.any_eq_true.mpr ⟨pairConflictUpdate k1 k2 s1 r1 x,
        List.mem_map_of_mem _ hxt, ?_⟩
      simp [pairKeyIs, pairConflictUpdate_unit_a, pairConflictUpdate_unit_b,
        hxkey'.1, hxkey'.2]
    have h2 : insertPairCanonical (insertPairCanonical t k1 k2 s1 r1) k1 k2 s2 r2 =
        (t.map (pairConflictUpdate k1 k2 s1 r1)).map (pairConflictUpdate k1 k2 s2 r2) := by
      rw [h1]
      unfold insertPairCanonical
      rw [if_pos hany1]
    rw [h2, pairRowsFor_map_update, pairRowsFor_map_update, hrows]
    simp only [List.map_cons, List.map_nil]
    unfold pairConflictUpdate
    rw [if_pos (by simp [pairKeyIs, hxkey'.1, hxkey'.2])]
    rw [if_pos (by simp [pairKeyIs, hxkey'.1, hxkey'.2])]
    simp [hxkey'.1, hxkey'.2]
  · -- fresh path: no row for the pair exists yet
    have hrows : pairRowsFor t k1 k2 = [] := by
      rcases hrw : pairRowsFor t k1 k2 with _ | ⟨y, l⟩
      · rfl
      · exfalso
        have hy : y ∈ pairRowsFor t k1 k2 := by rw [hrw]; exact List.mem_cons_self y l
        obtain ⟨hyt, hyor⟩ := (mem_pairRowsFor t k1 k2 y).mp hy
        have hykey := hcanon y hyt hyor
        exact hany (List.any_eq_true.mpr ⟨y, hyt, by simp [pairKeyIs, hykey.1, hykey.2]⟩)
    refine ⟨"new", ?_⟩
    have h1 : insertPairCanonical t k1 k2 s1 r1 = t ++ [⟨k1, k2, s1, "new", r1⟩] := by
      unfold insertPairCanonical
      rw [if_neg (by simpa using hany)]
    have hany1 : (t ++ [(⟨k1, k2, s1, "new", r1⟩ : SimilarPairRow)]).any (pairKeyIs k1 k2) := by
      refine List.any_eq_true.mpr
        ⟨(⟨k1, k2, s1, "new", r1⟩ : SimilarPairRow), ?_, by simp [pairKeyIs]⟩
      simp
    have h2 : insertPairCanonical (insertPairCanonical t k1 k2 s1 r1) k1 k2 s2 r2 =
        (t ++ [(⟨k1, k2, s1, "new", r1⟩ : SimilarPairRow)]).map
          (pairConflictUpdate k1 k2 s2 r2) := by
      rw [h1]
      unfold insertPairCanonical
      rw [if_pos hany1]
    rw [h2, pairRowsFor_map_update, pairRowsFor_append, hrows]
    simp only [List.nil_append]
    have : pairRowsFor [(⟨k1, k2, s1, "new", r1⟩ : SimilarPairRow)] k1 k2 =
        [(⟨k1, k2, s1, "new", r1⟩ : SimilarPairRow)] := by
      simp [pairRowsFor]
    rw [this]
    simp only [List.map_cons, List.map_nil]
    unfold pairConflictUpdate
    rw [if_pos (by simp [pairKeyIs])]

/-- C1 (claim): for distinct names `a ≠ b`, upserting `(a, b, s1)` and
then `(b, a, s2)` leaves exactly one `similar_pairs` row for the pair
`{a, b}`, with `unit_a` the lexicographically smaller name, `unit_b` the
larger, and similarity `s2`.  The starting table is any table whose rows
for the pair are canonical and unique (the `UNIQUE(unit_a, unit_b)` +
canonical-storage invariant, vacuously true of a table without the
pair). -/
theorem upsert_similar_pair_canonicalization
    (t : List SimilarPairRow) (a b : String) (s1 s2 : ℚ) (r1 r2 : Option String)
    (hab : a ≠ b)
    (hcanon : ∀ r ∈ t,
      ((r.unit_a = a ∧ r.unit_b = b) ∨ (r.unit_a = b ∧ r.unit_b = a)) →
        (r.unit_a = min a b ∧ r.unit_b = max a b))
    (hlen : (pairRowsFor t a b).length ≤ 1) :
    (pairRowsFor
      (upsert_similar_pair (upsert_similar_pair t a b s1 r1) b a s2 r2)
      a b).length = 1 ∧
    ∀ r ∈ pairRowsFor
        (upsert_similar_pair (upsert_similar_pair t a b s1 r1) b a s2 r2) a b,
      r.unit_a = min a b ∧ r.unit_b = max a b ∧ r.similarity = s2 := by
  rcases lt_trichotomy a b with hlt | heq | hgt
  · have hmin : min a b = a := min_eq_left hlt.le
    have hmax : max a b = b := max_eq_right hlt.le
    have e1 : upsert_similar_pair t a b s1 r1 = insertPairCanonical t a b s1 r1 := by
      unfold upsert_similar_pair
      rw [if_pos hlt, if_pos hlt]
    have e2 : ∀ u, upsert_similar_pair u b a s2 r2 = insertPairCanonical u a b s2 r2 := by
      intro u
      unfold upsert_similar_pair
      rw [if_neg (lt_asymm hlt), if_neg (lt_asymm hlt)]
    have hcanon' : ∀ r ∈ t,
        ((r.unit_a = a ∧ r.unit_b = b) ∨ (r.unit_a = b ∧ r.unit_b = a)) →
          (r.unit_a = a ∧ r.unit_b = b) := by
      intro r hr hp
      have := hcanon r hr hp
      rwa [hmin, hmax] at this
    obtain ⟨st, hrows⟩ := insertPair_twice t a b s1 s2 r1 r2 hcanon' hlen
    rw [e1, e2, hrows]
    simp [hmin, hmax]
  · exact absurd heq hab
  · have hmin : min a b = b := min_eq_right hgt.le
    have hmax : max a b = a := max_eq_left hgt.le
    have e1 : upsert_similar_pair t a b s1 r1 = insertPairCanonical t b a s1 r1 := by
      unfold upsert_similar_pair
      rw [if_neg (lt_asymm hgt), if_neg (lt_asymm hgt)]
    have e2 : ∀ u, upsert_similar_pair u b a s2 r2 = insertPairCanonical u b a s2 r2 := by
      intro u
      unfold upsert_similar_pair
      rw [if_pos hgt, if_pos hgt]
    have hcanon' : ∀ r ∈ t,
        ((r.unit_a = b ∧ r.unit_b = a) ∨ (r.unit_a = a ∧ r.unit_b = b)) →
          (r.unit_a = b ∧ r.unit_b = a) := by
      intro r hr hp
      have := hcanon r hr (Or.symm hp)
      rwa [hmin, hmax] at this
    have hlen' : (pairRowsFor t b a).length ≤ 1 := by
      rw [pairRowsFor_comm]
      exact hlen
    obtain ⟨st, hrows⟩ := insertPair_twice t b a s1 s2 r1 r2 hcanon' hlen'
    rw [e1, e2, pairRowsFor_comm, hrows]
    simp [hmin, hmax]

/-- Witness for C1 at the empty table and the pair `("x", "y")`. -/
theorem upsert_similar_pair_canonicalization_witness :
    (pairRowsFor
      (upsert_similar_pair (upsert_similar_pair [] "x" "y" (1/2) none)
        "y" "x" (3/4) (some "scan")) "x" "y").length = 1 ∧
    ∀ r ∈ pairRowsFor
        (upsert_similar_pair (upsert_similar_pair [] "x" "y" (1/2) none)
          "y" "x" (3/4) (some "scan")) "x" "y",
      r.unit_a = min "x" "y" ∧ r.unit_b = max "x" "y" ∧ r.similarity = 3/4 :=
  upsert_similar_pair_canonicalization [] "x" "y" (1/2) (3/4) none (some "scan")
    (by decide) (by simp) (by simp [pairRowsFor])

/-! ## Helper lemmas: batch upsert -/

theorem mem_insertPairCanonical (t : List SimilarPairRow) (a b : String) (s : ℚ)
    (reason : Option String) (r : SimilarPairRow)
    (hr : r ∈ insertPairCanonical t a b s reason) :
    r ∈ t ∨ (r.unit_a = a ∧ r.unit_b = b) := by
  unfold insertPairCanonical at hr
  split at hr
  · obtain ⟨x, hx, hxr⟩ := List.mem_map.mp hr
    unfold pairConflictUpdate at hxr
    split at hxr
    · rename_i hkey
      right
      subst hxr
      simpa [pairKeyIs] using hkey
    · left
      subst hxr
      exact hx
  · rcases List.mem_append.mp hr with h | h
    · left; exact h
    · right
      simp only [List.mem_singleton] at h
      subst h
      exact ⟨rfl, rfl⟩

theorem batchInsertLoop_ok (err : List SimilarPairRow → String → String → ℚ → Option String)
    (reason : Option String) :
    ∀ (pairs : List (String × String × ℚ)) (t : List SimilarPairRow)
      (c : Nat) (t' : List SimilarPairRow) (n : Nat),
      batchInsertLoop err reason t pairs c = .ok (t', n) →
      n = c + pairs.length ∧ ∀ r ∈ t', r ∈ t ∨ r.unit_a ≤ r.unit_b := by
  intro pairs
  induction pairs with
  | nil =>
    intro t c t' n h
    unfold batchInsertLoop at h
    cases h
    exact ⟨rfl, fun r hr => Or.inl hr⟩
  | cons p rest ih =>
    intro t c t' n h
    obtain ⟨ua, ub, s⟩ := p
    have hform : batchInsertLoop err reason t ((ua, ub, s) :: rest) c =
        match err t (if ua < ub then ua else ub) (if ua < ub then ub else ua) s with
        | some e => Except.error e
        | none => batchInsertLoop err reason
            (insertPairCanonical t (if ua < ub then ua else ub)
              (if ua < ub then ub else ua) s reason) rest (c + 1) := rfl
    rw [hform] at h
    cases herr : err t (if ua < ub then ua else ub) (if ua < ub then ub else ua) s with
    | some e => rw [herr] at h; cases h
    | none =>
      rw [herr] at h
      obtain ⟨hn, hmem⟩ := ih _ _ _ _ h
      refine ⟨by simpa [Nat.add_comm, Nat.add_assoc, Nat.add_left_comm] using hn, ?_⟩
      intro r hr
      rcases hmem r hr with hin | hcan
      · rcases mem_insertPairCanonical _ _ _ _ _ _ hin with hin' | hkey
        · exact Or.inl hin'
        · right
          rw [hkey.1, hkey.2]
          split
          · rename_i hlt; exact le_of_lt hlt
          · rename_i hge; exact le_of_not_lt hge
      · exact Or.inr hcan

/-- C4 (claim): `batch_upsert_similar_pairs` is atomic — if any insert of
the batch fails, the caller sees the original table (full rollback) and
the error; on success it returns the number of input pairs, and every row
it touched is stored with `unit_a ≤ unit_b` (canonical order). -/
theorem batch_upsert_similar_pairs_atomic
    (err : List SimilarPairRow → String → String → ℚ → Option String)
    (t : List SimilarPairRow) (pairs : List (String × String × ℚ))
    (reason : Option String) :
    (∀ e, (batch_upsert_similar_pairs err t pairs reason).2 = .error e →
      (batch_upsert_similar_pairs err t pairs reason).1 = t) ∧
    (∀ n, (batch_upsert_similar_pairs err t pairs reason).2 = .ok n →
      n = pairs.length ∧
      ∀ r ∈ (batch_upsert_similar_pairs err t pairs reason).1,
        r ∈ t ∨ r.unit_a ≤ r.unit_b) := by
  cases h : batchInsertLoop err reason t pairs 0 with
  | ok p =>
    obtain ⟨t', n0⟩ := p
    obtain ⟨hn0, hmem⟩ := batchInsertLoop_ok err reason pairs t 0 t' n0 h
    constructor
    · intro e he
      simp [batch_upsert_similar_pairs, h] at he
    · intro n hn
      have : n = n0 := by
        simpa [batch_upsert_similar_pairs, h] using hn.symm
      subst this
      constructor
      · simpa using hn0
      · intro r hr
        apply hmem
        simpa [batch_upsert_similar_pairs, h] using hr
  | error e' =>
    constructor
    · intro e _
      simp [batch_upsert_similar_pairs, h]
    · intro n hn
      simp [batch_upsert_similar_pairs, h] at hn

/-- Witness for C4: a failing oracle rolls the table back; an
all-successful oracle writes one canonical pair and reports count 1. -/
theorem batch_upsert_similar_pairs_atomic_witness :
    (batch_upsert_similar_pairs (fun _ _ _ _ => some "constraint failed")
      [] [("y", "x", 1/2)] (some "scan")).1 = [] ∧
    ((1 : Nat) = [("y", "x", (1/2 : ℚ))].length ∧
      ∀ r ∈ (batch_upsert_similar_pairs (fun _ _ _ _ => none)
          [] [("y", "x", 1/2)] (some "scan")).1,
        r ∈ ([] : List SimilarPairRow) ∨ r.unit_a ≤ r.unit_b) :=
  ⟨(batch_upsert_similar_pairs_atomic (fun _ _ _ _ => some "constraint failed")
      [] [("y", "x", 1/2)] (some "scan")).1 "constraint failed" rfl,
   (batch_upsert_similar_pairs_atomic (fun _ _ _ _ => none)
      [] [("y", "x", 1/2)] (some "scan")).2 1 rfl⟩

/-! ## Helper lemmas: code_units upsert -/

theorem codeUnitConflictUpdate_name (r : CodeUnitRow) (gid : Option Int)
    (u : CodeUnitRow) :
    (codeUnitConflictUpdate r gid u).qualified_name = u.qualified_name := by
  unfold codeUnitConflictUpdate
  split <;> rfl

theorem get_code_unit_map_update (t : List CodeUnitRow) (r : CodeUnitRow)
    (gid : Option Int) (name : String) :
    get_code_unit (t.map (codeUnitConflictUpdate r gid)) name =
      (get_code_unit t name).map (codeUnitConflictUpdate r gid) := by
  unfold get_code_unit
  rw [List.find?_map]
  have : ((fun u => decide (u.qualified_name = name)) ∘ codeUnitConflictUpdate r gid) =
      fun u : CodeUnitRow => decide (u.qualified_name = name) :=
    funext fun u => by simp [Function.comp, codeUnitConflictUpdate_name]
  rw [this]

/-- The branch structure of `upsert_code_unit`, stated once. -/
theorem upsert_code_unit_eq (t : List CodeUnitRow) (r : CodeUnitRow) :
    upsert_code_unit t r =
      if t.any (fun u => u.qualified_name = r.qualified_name) then
        t.map (codeUnitConflictUpdate r ((inheritedGroupId t r).or r.group_id))
      else t ++ [{ r with group_id := (inheritedGroupId t r).or r.group_id }] := rfl

/-- C3 (claim): a conflicting `upsert_code_unit` replaces file path, kind,
range, both hashes with the incoming values; replaces the embedding blob
only when the incoming record carries one (a null incoming embedding keeps
the stored blob); and keeps an already-set non-null `group_id`. -/
theorem upsert_code_unit_conflict_frame (t : List CodeUnitRow) (r e : CodeUnitRow)
    (he : get_code_unit t r.qualified_name = some e) :
    ∃ e', get_code_unit (upsert_code_unit t r) r.qualified_name = some e' ∧
      e'.file_path = r.file_path ∧ e'.kind = r.kind ∧
      e'.range_start = r.range_start ∧ e'.range_end = r.range_end ∧
      e'.content_hash = r.content_hash ∧ e'.structure_hash = r.structure_hash ∧
      e'.embedding = r.embedding.or e.embedding ∧
      (r.embedding = none → e'.embedding = e.embedding) ∧
      (∀ g, e.group_id = some g → e'.group_id = some g) := by
  have hmem : e ∈ t := List.mem_of_find?_eq_some he
  have hname : e.qualified_name = r.qualified_name := by
    have := List.find?_some he
    simpa using this
  have hany : t.any (fun u => u.qualified_name = r.qualified_name) = true :=
    List.any_eq_true.mpr ⟨e, hmem, by simp [hname]⟩
  rw [upsert_code_unit_eq, if_pos hany]
  refine ⟨codeUnitConflictUpdate r ((inheritedGroupId t r).or r.group_id) e, ?_, ?_⟩
  · rw [get_code_unit_map_update, he]
    rfl
  · unfold codeUnitConflictUpdate
    rw [if_pos hname]
    refine ⟨rfl, rfl, rfl, rfl, rfl, rfl, rfl, ?_, ?_⟩
    · intro hnone
      simp [hnone]
    · intro g hg
      simp [hg]

/-- Witness for C3: a null incoming embedding keeps the stored blob and a
set `group_id` survives the update. -/
theorem upsert_code_unit_conflict_frame_witness :
    ∃ e', get_code_unit (upsert_code_unit
        [⟨"n", 1, "old.rs", "function", 1, 5, "ch0", "sh0", some [1, 2, 3, 4], some 3⟩]
        ⟨"n", 1, "new.rs", "function", 2, 9, "ch1", "sh1", none, none⟩) "n" = some e' ∧
      e'.file_path = "new.rs" ∧ e'.kind = "function" ∧
      e'.range_start = 2 ∧ e'.range_end = 9 ∧
      e'.content_hash = "ch1" ∧ e'.structure_hash = "sh1" ∧
      e'.embedding = Option.or none (some [1, 2, 3, 4]) ∧
      ((none : Option (List Nat)) = none → e'.embedding = some [1, 2, 3, 4]) ∧
      (∀ g : Int, (some 3 : Option Int) = some g → e'.group_id = some g) :=
  upsert_code_unit_conflict_frame
    [⟨"n", 1, "old.rs", "function", 1, 5, "ch0", "sh0", some [1, 2, 3, 4], some 3⟩]
    ⟨"n", 1, "new.rs", "function", 2, 9, "ch1", "sh1", none, none⟩
    ⟨"n", 1, "old.rs", "function", 1, 5, "ch0", "sh0", some [1, 2, 3, 4], some 3⟩
    (by decide)

/-- Counterexample to C2 as stated: one stored sibling under
`structure_hash = "sh"` has `group_id = 5`; the incoming record carries
its own `group_id = 7`.  The claim says the record's own `group_id` is
stored; the code stores the inherited `5` (`inherited.or(record)` gives
the inherited value precedence). -/
theorem upsert_code_unit_group_claim_counterexample :
    (get_code_unit (upsert_code_unit
        [⟨"a", 1, "f.rs", "function", 0, 10, "h1", "sh", none, some 5⟩]
        ⟨"b", 1, "g.rs", "function", 0, 10, "h2", "sh", none, some 7⟩) "b").map
      (·.group_id) = some (some 5) ∧
    ¬ ((get_code_unit (upsert_code_unit
        [⟨"a", 1, "f.rs", "function", 0, 10, "h1", "sh", none, some 5⟩]
        ⟨"b", 1, "g.rs", "function", 0, 10, "h2", "sh", none, some 7⟩) "b").map
      (·.group_id) = some (some 7)) := by
  decide

/-- C2 (amended): the inherited `group_id` is the (non-null, flattened)
`group_id` of the first stored unit with the same `structure_hash` and a
different name; when it exists it is stored, taking precedence over the
record's own `group_id`, provided the row for the record is fresh or has
no `group_id` yet.  In particular an upsert with `group_id = null` whose
structure-hash sibling carries `G` acquires `G`. -/
theorem upsert_code_unit_group_inheritance (t : List CodeUnitRow)
    (r : CodeUnitRow) (G : Int)
    (hinh : inheritedGroupId t r = some G)
    (hex : get_code_unit t r.qualified_name = none ∨
      ∃ e, get_code_unit t r.qualified_name = some e ∧ e.group_id = none) :
    ∃ e', get_code_unit (upsert_code_unit t r) r.qualified_name = some e' ∧
      e'.group_id = some G := by
  rcases hex with hnone | ⟨e, he, heg⟩
  · have hany : t.any (fun u => u.qualified_name = r.qualified_name) = false := by
      rw [List.any_eq_false]
      intro u hu
      simp only [decide_eq_true_eq]
      intro hcontra
      have := List.find?_eq_none.mp hnone u hu
      simp [hcontra] at this
    rw [upsert_code_unit_eq, if_neg (by rw [hany]; exact Bool.false_ne_true)]
    refine ⟨{ r with group_id := (inheritedGroupId t r).or r.group_id }, ?_, ?_⟩
    · unfold get_code_unit
      rw [List.find?_append]
      unfold get_code_unit at hnone
      rw [hnone]
      simp
    · simp [hinh]
  · have hmem : e ∈ t := List.mem_of_find?_eq_some he
    have hname : e.qualified_name = r.qualified_name := by
      have := List.find?_some he
      simpa using this
    have hany : t.any (fun u => u.qualified_name = r.qualified_name) = true :=
      List.any_eq_true.mpr ⟨e, hmem, by simp [hname]⟩
    rw [upsert_code_unit_eq, if_pos hany]
    refine ⟨codeUnitConflictUpdate r ((inheritedGroupId t r).or r.group_id) e, ?_, ?_⟩
    · rw [get_code_unit_map_update, he]
      rfl
    · unfold codeUnitConflictUpdate
      rw [if_pos hname]
      simp [heg, hinh]

/-- Witness for the amended C2: upserting `"b"` with null `group_id` when
the sole structure-hash sibling has `group_id = 5` stores `5`. -/
theorem upsert_code_unit_group_inheritance_witness :
    ∃ e', get_code_unit (upsert_code_unit
        [⟨"a", 1, "f.rs", "function", 0, 10, "h1", "sh", none, some 5⟩]
        ⟨"b", 1, "g.rs", "function", 0, 10, "h2", "sh", none, none⟩) "b" = some e' ∧
      e'.group_id = some 5 :=
  upsert_code_unit_group_inheritance
    [⟨"a", 1, "f.rs", "function", 0, 10, "h1", "sh", none, some 5⟩]
    ⟨"b", 1, "g.rs", "function", 0, 10, "h2", "sh", none, none⟩ 5
    (by decide) (Or.inl (by decide))

/-! ## Helper lemmas: the cmd_scan pair-collection loop -/

theorem canonPair_lt (x y : String) (h : x ≠ y) :
    (canonPair x y).1 < (canonPair x y).2 := by
  unfold canonPair
  rcases lt_trichotomy x y with hlt | heq | hgt
  · rw [if_pos hlt]; exact hlt
  · exact absurd heq h
  · rw [if_neg (lt_asymm hgt)]; exact hgt

/-- One unfolding step of `cmdScanCollect` on a cons. -/
theorem cmdScanCollect_cons (uwe allU : List CodeUnitRow) (cOnly : Bool)
    (seen : List (String × String)) (qidx : Nat) (simName : String) (s : ℚ)
    (rest : List (Nat × String × ℚ)) :
    cmdScanCollect uwe allU cOnly seen ((qidx, simName, s) :: rest) =
      match uwe.get? qidx with
      | none => cmdScanCollect uwe allU cOnly seen rest
      | some qu =>
        if simName = qu.qualified_name then cmdScanCollect uwe allU cOnly seen rest
        else if cOnly ∧ scanNameToProject allU simName = some qu.project_id then
          cmdScanCollect uwe allU cOnly seen rest
        else if canonPair qu.qualified_name simName ∈ seen then
          cmdScanCollect uwe allU cOnly seen rest
        else ((canonPair qu.qualified_name simName).1,
              (canonPair qu.qualified_name simName).2, s) ::
          cmdScanCollect uwe allU cOnly (canonPair qu.qualified_name simName :: seen) rest := rfl

theorem cmdScanCollect_cons_none (uwe allU : List CodeUnitRow) (cOnly : Bool)
    (seen : List (String × String)) (qidx : Nat) (simName : String) (s : ℚ)
    (rest : List (Nat × String × ℚ)) (hq : uwe.get? qidx = none) :
    cmdScanCollect uwe allU cOnly seen ((qidx, simName, s) :: rest) =
      cmdScanCollect uwe allU cOnly seen rest := by
  rw [cmdScanCollect_cons, hq]

theorem cmdScanCollect_cons_some (uwe allU : List CodeUnitRow) (cOnly : Bool)
    (seen : List (String × String)) (qidx : Nat) (simName : String) (s : ℚ)
    (rest : List (Nat × String × ℚ)) (qu : CodeUnitRow)
    (hq : uwe.get? qidx = some qu) :
    cmdScanCollect uwe allU cOnly seen ((qidx, simName, s) :: rest) =
      if simName = qu.qualified_name then cmdScanCollect uwe allU cOnly seen rest
      else if cOnly ∧ scanNameToProject allU simName = some qu.project_id then
        cmdScanCollect uwe allU cOnly seen rest
      else if canonPair qu.qualified_name simName ∈ seen then
        cmdScanCollect uwe allU cOnly seen rest
      else ((canonPair qu.qualified_name simName).1,
            (canonPair qu.qualified_name simName).2, s) ::
        cmdScanCollect uwe allU cOnly (canonPair qu.qualified_name simName :: seen) rest := by
  rw [cmdScanCollect_cons, hq]

theorem cmdScanCollect_sound (uwe allU : List CodeUnitRow) (cOnly : Bool) :
    ∀ (rs : List (Nat × String × ℚ)) (seen : List (String × String))
      (p : String × String × ℚ), p ∈ cmdScanCollect uwe allU cOnly seen rs →
      ∃ qidx simName s, (qidx, simName, s) ∈ rs ∧
        ∃ qu, uwe.get? qidx = some qu ∧
          simName ≠ qu.qualified_name ∧
          (cOnly = true → scanNameToProject allU simName ≠ some qu.project_id) ∧
          p = ((canonPair qu.qualified_name simName).1,
               (canonPair qu.qualified_name simName).2, s) := by
  intro rs
  induction rs with
  | nil =>
    intro seen p hp
    simp [cmdScanCollect] at hp
  | cons r rest ih =>
    intro seen p hp
    obtain ⟨qidx, simName, s⟩ := r
    have tailCase : ∀ seen', p ∈ cmdScanCollect uwe allU cOnly seen' rest →
        ∃ qidx' simName' s', (qidx', simName', s') ∈ (qidx, simName, s) :: rest ∧
          ∃ qu, uwe.get? qidx' = some qu ∧
            simName' ≠ qu.qualified_name ∧
            (cOnly = true → scanNameToProject allU simName' ≠ some qu.project_id) ∧
            p = ((canonPair qu.qualified_name simName').1,
                 (canonPair qu.qualified_name simName').2, s') := by
      intro seen' hp'
      obtain ⟨qidx', simName', s', hmem, rest'⟩ := ih seen' p hp'
      exact ⟨qidx', simName', s', List.mem_cons_of_mem _ hmem, rest'⟩
    cases hq : uwe.get? qidx with
    | none =>
      rw [cmdScanCollect_cons_none uwe allU cOnly seen qidx simName s rest hq] at hp
      exact tailCase seen hp
    | some qu =>
      rw [cmdScanCollect_cons_some uwe allU cOnly seen qidx simName s rest qu hq] at hp
      by_cases hself : simName = qu.qualified_name
      · rw [if_pos hself] at hp
        exact tailCase seen hp
      · rw [if_neg hself] at hp
        by_cases hcross : cOnly ∧ scanNameToProject allU simName = some qu.project_id
        · rw [if_pos hcross] at hp
          exact tailCase seen hp
        · rw [if_neg hcross] at hp
          by_cases hseen : canonPair qu.qualified_name simName ∈ seen
          · rw [if_pos hseen] at hp
            exact tailCase seen hp
          · rw [if_neg hseen] at hp
            rcases List.mem_cons.mp hp with hhead | htail
            · refine ⟨qidx, simName, s, List.mem_cons_self _ _,
                qu, hq, hself, ?_, hhead⟩
              intro hc hcontra
              exact hcross ⟨hc, hcontra⟩
            · exact tailCase _ htail

theorem cmdScanCollect_key_not_seen (uwe allU : List CodeUnitRow) (cOnly : Bool) :
    ∀ (rs : List (Nat × String × ℚ)) (seen : List (String × String))
      (p : String × String × ℚ), p ∈ cmdScanCollect uwe allU cOnly seen rs →
      (p.1, p.2.1) ∉ seen := by
  intro rs
  induction rs with
  | nil =>
    intro seen p hp
    simp [cmdScanCollect] at hp
  | cons r rest ih =>
    intro seen p hp
    obtain ⟨qidx, simName, s⟩ := r
    cases hq : uwe.get? qidx with
    | none =>
      rw [cmdScanCollect_cons_none uwe allU cOnly seen qidx simName s rest hq] at hp
      exact ih seen p hp
    | some qu =>
      rw [cmdScanCollect_cons_some uwe allU cOnly seen qidx simName s rest qu hq] at hp
      by_cases hself : simName = qu.qualified_name
      · rw [if_pos hself] at hp
        exact ih seen p hp
      · rw [if_neg hself] at hp
        by_cases hcross : cOnly ∧ scanNameToProject allU simName = some qu.project_id
        · rw [if_pos hcross] at hp
          exact ih seen p hp
        · rw [if_neg hcross] at hp
          by_cases hseen : canonPair qu.qualified_name simName ∈ seen
          · rw [if_pos hseen] at hp
            exact ih seen p hp
          · rw [if_neg hseen] at hp
            rcases List.mem_cons.mp hp with hhead | htail
            · subst hhead
              exact hseen
            · have := ih _ p htail
              intro hmem
              exact this (List.mem_cons_of_mem _ hmem)

theorem cmdScanCollect_keys_nodup (uwe allU : List CodeUnitRow) (cOnly : Bool) :
    ∀ (rs : List (Nat × String × ℚ)) (seen : List (String × String)),
      ((cmdScanCollect uwe allU cOnly seen rs).map fun p => (p.1, p.2.1)).Nodup := by
  intro rs
  induction rs with
  | nil =>
    intro seen
    simp [cmdScanCollect]
  | cons r rest ih =>
    intro seen
    obtain ⟨qidx, simName, s⟩ := r
    cases hq : uwe.get? qidx with
    | none =>
      rw [cmdScanCollect_cons_none uwe allU cOnly seen qidx simName s rest hq]
      exact ih seen
    | some qu =>
      rw [cmdScanCollect_cons_some uwe allU cOnly seen qidx simName s rest qu hq]
      by_cases hself : simName = qu.qualified_name
      · rw [if_pos hself]; exact ih seen
      · rw [if_neg hself]
        by_cases hcross : cOnly ∧ scanNameToProject allU simName = some qu.project_id
        · rw [if_pos hcross]; exact ih seen
        · rw [if_neg hcross]
          by_cases hseen : canonPair qu.qualified_name simName ∈ seen
          · rw [if_pos hseen]; exact ih seen
          · rw [if_neg hseen]
            simp only [List.map_cons, List.nodup_cons]
            refine ⟨?_, ih _⟩
            intro hmem
            obtain ⟨p, hp, hkey⟩ := List.mem_map.mp hmem
            have hnot := cmdScanCollect_key_not_seen uwe allU cOnly rest _ p hp
            rw [hkey] at hnot
            exact hnot (List.mem_cons_self _ _)

/-- C8 (claim): every pair `cmd_scan` hands to
`batch_upsert_similar_pairs` has distinct, strictly ordered names
(`first < second` lexicographically), derives from a search hit that is
not a self match and — under `cross_only` — whose matched unit's project
(per the name→project map) differs from the query unit's, and no pair key
appears twice in the list. -/
theorem cmd_scan_pairs_spec (allUnits : List CodeUnitRow) (crossOnly : Bool)
    (searchResults : List (Nat × String × ℚ)) :
    (∀ p ∈ cmd_scan_new_pairs allUnits crossOnly searchResults,
      p.1 < p.2.1 ∧
      ∃ qidx simName s, (qidx, simName, s) ∈ searchResults ∧
        ∃ qu, (unitsWithValidEmbedding allUnits).get? qidx = some qu ∧
          simName ≠ qu.qualified_name ∧
          (crossOnly = true → scanNameToProject allUnits simName ≠ some qu.project_id) ∧
          p = ((canonPair qu.qualified_name simName).1,
               (canonPair qu.qualified_name simName).2, s)) ∧
    ((cmd_scan_new_pairs allUnits crossOnly searchResults).map
      fun p => (p.1, p.2.1)).Nodup := by
  constructor
  · intro p hp
    obtain ⟨qidx, simName, s, hmem, qu, hq, hself, hcross, hpe⟩ :=
      cmdScanCollect_sound (unitsWithValidEmbedding allUnits) allUnits crossOnly
        searchResults [] p hp
    refine ⟨?_, qidx, simName, s, hmem, qu, hq, hself, hcross, hpe⟩
    rw [hpe]
    exact canonPair_lt _ _ (fun h => hself h.symm)
  · exact cmdScanCollect_keys_nodup (unitsWithValidEmbedding allUnits) allUnits
      crossOnly searchResults []

/-- Concrete string-order facts (the kernel cannot evaluate `String.ltb`,
so they go through the character-list order). -/
theorem string_lt_ab : ("a" : String) < "b" := by
  rw [String.lt_iff_toList_lt]
  decide

/-- Witness for C8: one cross-project hit over two units yields the
canonical pair `("a", "b")`. -/
theorem cmd_scan_pairs_spec_witness :
    ("a", "b", (1 : ℚ)).1 < ("a", "b", (1 : ℚ)).2.1 ∧
    ∃ qidx simName s,
      (qidx, simName, s) ∈ [((0 : Nat), "b", (1 : ℚ))] ∧
      ∃ qu, (unitsWithValidEmbedding
          [⟨"a", 1, "fa.rs", "function", 0, 9, "ca", "sa", some [0, 0, 128, 63], none⟩,
           ⟨"b", 2, "fb.rs", "function", 0, 9, "cb", "sb", some [0, 0, 128, 63], none⟩]).get? qidx
          = some qu ∧
        simName ≠ qu.qualified_name ∧
        (true = true → scanNameToProject
          [⟨"a", 1, "fa.rs", "function", 0, 9, "ca", "sa", some [0, 0, 128, 63], none⟩,
           ⟨"b", 2, "fb.rs", "function", 0, 9, "cb", "sb", some [0, 0, 128, 63], none⟩]
          simName ≠ some qu.project_id) ∧
        ("a", "b", (1 : ℚ)) = ((canonPair qu.qualified_name simName).1,
             (canonPair qu.qualified_name simName).2, s) := by
  have hcanon : canonPair "a" "b" = ("a", "b") := by
    unfold canonPair
    rw [if_pos string_lt_ab]
  refine (cmd_scan_pairs_spec
    [⟨"a", 1, "fa.rs", "function", 0, 9, "ca", "sa", some [0, 0, 128, 63], none⟩,
     ⟨"b", 2, "fb.rs", "function", 0, 9, "cb", "sb", some [0, 0, 128, 63], none⟩]
    true [(0, "b", 1)]).1 ("a", "b", 1) ?_
  have hres : cmd_scan_new_pairs
      [⟨"a", 1, "fa.rs", "function", 0, 9, "ca", "sa", some [0, 0, 128, 63], none⟩,
       ⟨"b", 2, "fb.rs", "function", 0, 9, "cb", "sb", some [0, 0, 128, 63], none⟩]
      true [(0, "b", 1)] =
      [((canonPair "a" "b").1, (canonPair "a" "b").2, 1)] := rfl
  rw [hres, hcanon]
  exact List.mem_singleton.mpr rfl

/-! ## Helper lemmas: the hook matchers -/

theorem mem_insertSorted {α : Type} (le : α → α → Bool) (x a : α) :
    ∀ (l : List α), a ∈ insertSorted le x l ↔ a = x ∨ a ∈ l := by
  intro l
  induction l with
  | nil => simp [insertSorted]
  | cons y ys ih =>
    unfold insertSorted
    split
    · simp
    · simp only [List.mem_cons, ih]
      tauto

theorem mem_sortStable {α : Type} (le : α → α → Bool) (a : α) :
    ∀ (l : List α), a ∈ sortStable le l ↔ a ∈ l := by
  intro l
  induction l with
  | nil => simp [sortStable]
  | cons x xs ih =>
    unfold sortStable
    rw [mem_insertSorted]
    simp only [List.mem_cons, ih]

theorem get_code_unit_name (t : List CodeUnitRow) (n : String) (u : CodeUnitRow)
    (h : get_code_unit t n = some u) : u.qualified_name = n := by
  have := List.find?_some h
  simpa using this

theorem mem_twoDirectional (l : List SimilarPairRow) (p : SimilarPairRow)
    (hp : p ∈ l) :
    (p.unit_a, p.unit_b) ∈ twoDirectional l ∧
    (p.unit_b, p.unit_a) ∈ twoDirectional l := by
  induction l with
  | nil => cases hp
  | cons q rest ih =>
    rcases List.mem_cons.mp hp with rfl | htail
    · exact ⟨List.mem_cons_self _ _, List.mem_cons_of_mem _ (List.mem_cons_self _ _)⟩
    · obtain ⟨h1, h2⟩ := ih htail
      exact ⟨List.mem_cons_of_mem _ (List.mem_cons_of_mem _ h1),
        List.mem_cons_of_mem _ (List.mem_cons_of_mem _ h2)⟩

/-- An ignored pair that survives the join (both endpoints stored) and
the `similarity >= 0` filter is in the two-directional ignored set, in
both orientations. -/
theorem ignoredPairList_complete (units : List CodeUnitRow)
    (pairs : List SimilarPairRow) (p : SimilarPairRow) (hp : p ∈ pairs)
    (hst : p.status = "ignored") (hsim : 0 ≤ p.similarity)
    (ha : (get_code_unit units p.unit_a).isSome)
    (hb : (get_code_unit units p.unit_b).isSome) :
    (p.unit_a, p.unit_b) ∈ ignoredPairList units pairs ∧
    (p.unit_b, p.unit_a) ∈ ignoredPairList units pairs := by
  have hmem : p ∈ get_similar_pairs units pairs none (some "ignored") 0 := by
    unfold get_similar_pairs
    rw [List.mem_filter]
    refine ⟨hp, ?_⟩
    simp only [Bool.and_eq_true, decide_eq_true_eq]
    refine ⟨⟨⟨⟨hsim, ha⟩, hb⟩, ?_⟩, ?_⟩
    · unfold joinProjectOk
      rfl
    · simp [hst]
  exact mem_twoDirectional _ p hmem

theorem bruteForceCandidate_some (sim : List Nat → List Nat → ℚ)
    (ignored : List (String × String)) (cpid : Option Int) (scope : HookScope)
    (threshold : ℚ) (unit : QueryUnit) (qemb : List Nat)
    (du : CodeUnitRow × List Nat) (m : SimilarityMatch)
    (h : bruteForceCandidate sim ignored cpid scope threshold unit qemb du = some m) :
    m.current_name = unit.qualified_name ∧ m.similar_name = du.1.qualified_name ∧
    du.1.qualified_name ≠ unit.qualified_name ∧
    (unit.qualified_name, du.1.qualified_name) ∉ ignored := by
  unfold bruteForceCandidate at h
  by_cases h1 : du.1.qualified_name = unit.qualified_name
  · rw [if_pos h1] at h; cases h
  · rw [if_neg h1] at h
    by_cases h2 : (unit.qualified_name, du.1.qualified_name) ∈ ignored
    · rw [if_pos h2] at h; cases h
    · rw [if_neg h2] at h
      by_cases h3 : scope = HookScope.CrossOnly ∧ cpid = some du.1.project_id
      · rw [if_pos h3] at h; cases h
      · rw [if_neg h3] at h
        by_cases h4 : threshold ≤ sim qemb du.2
        · rw [if_pos h4] at h
          cases h
          exact ⟨rfl, rfl, h1, h2⟩
        · rw [if_neg h4] at h; cases h

theorem find_similar_units_sound (embed : String → Option (List Nat))
    (sim : List Nat → List Nat → ℚ) (units_table : List CodeUnitRow)
    (pairs_table : List SimilarPairRow) (queryUnits : List QueryUnit)
    (cpid : Option Int) (scope : HookScope) (threshold : ℚ) (max_results : Nat)
    (m : SimilarityMatch)
    (hm : m ∈ find_similar_units embed sim units_table pairs_table queryUnits
      cpid scope threshold max_results) :
    m.similar_name ≠ m.current_name ∧
    (m.current_name, m.similar_name) ∉ ignoredPairList units_table pairs_table := by
  have heq : find_similar_units embed sim units_table pairs_table queryUnits
      cpid scope threshold max_results =
      if (dbEmbeddingsOf (matcherDbUnits units_table cpid scope)).isEmpty then []
      else queryUnits.flatMap fun unit =>
        match embed unit.body with
        | none => []
        | some qemb =>
          (sortStable (fun x y => y.similarity ≤ x.similarity)
            ((dbEmbeddingsOf (matcherDbUnits units_table cpid scope)).filterMap
              (bruteForceCandidate sim (ignoredPairList units_table pairs_table)
                cpid scope threshold unit qemb))).take max_results := rfl
  rw [heq] at hm
  by_cases hempty : (dbEmbeddingsOf (matcherDbUnits units_table cpid scope)).isEmpty
  · rw [if_pos hempty] at hm; cases hm
  · rw [if_neg hempty] at hm
    rw [List.mem_flatMap] at hm
    obtain ⟨unit, _, hm⟩ := hm
    cases hemb : embed unit.body with
    | none => rw [hemb] at hm; cases hm
    | some qemb =>
      rw [hemb] at hm
      have hm' := List.take_subset _ _ hm
      rw [mem_sortStable] at hm'
      obtain ⟨du, _, hf⟩ := List.mem_filterMap.mp hm'
      obtain ⟨hc, hs, hneq, hnig⟩ := bruteForceCandidate_some _ _ _ _ _ _ _ _ _ hf
      rw [hc, hs]
      exact ⟨hneq, hnig⟩

theorem search_filtered_keep (dist : List Nat → List Nat → ℚ)
    (idx : VectorIndex) (query : List Nat) (k : Nat) (keep : Nat → Bool)
    (results : List SearchResult)
    (h : idx.search_filtered dist query k keep = .ok results) :
    ∀ r ∈ results, keep r.id = true := by
  unfold VectorIndex.search_filtered at h
  by_cases hd : query.length ≠ idx.dimensions
  · rw [if_pos hd] at h; cases h
  · rw [if_neg hd] at h
    cases h
    intro r hr
    have hr' := List.take_subset _ _ hr
    rw [mem_sortStable] at hr'
    obtain ⟨e, he, hre⟩ := List.mem_map.mp hr'
    rw [← hre]
    exact (List.mem_filter.mp he).2

theorem store_search_eq_some (dist : List Nat → List Nat → ℚ) (store : Store)
    (q : List Nat) (k : Nat) (th : ℚ) (keep : String → Bool)
    (idx : VectorIndex) (hvi : store.vector_index = some idx) :
    Store.search_similar_filtered dist store q k th keep =
      match idx.search_filtered dist q k (fun id =>
          match lookupName store.id_to_name id with
          | some name => keep name
          | none => false) with
      | .error e => .error (.VectorIndexErr e)
      | .ok results =>
        .ok (results.filterMap fun r =>
          if r.similarity < th then none
          else
            match lookupName store.id_to_name r.id with
            | none => none
            | some name =>
              match get_code_unit store.units name with
              | some unit => some ⟨unit.qualified_name, unit.file_path,
                  unit.range_start, unit.project_id, r.similarity⟩
              | none => none) := by
  unfold Store.search_similar_filtered
  rw [hvi]

theorem store_search_similar_filtered_keep (dist : List Nat → List Nat → ℚ)
    (store : Store) (q : List Nat) (k : Nat) (th : ℚ) (keep : String → Bool)
    (sus : List SimilarUnit)
    (h : Store.search_similar_filtered dist store q k th keep = .ok sus) :
    ∀ su ∈ sus, keep su.qualified_name = true := by
  cases hvi : store.vector_index with
  | none =>
    unfold Store.search_similar_filtered at h
    rw [hvi] at h
    cases h
  | some idx =>
    rw [store_search_eq_some dist store q k th keep idx hvi] at h
    cases hsr : idx.search_filtered dist q k (fun id =>
        match lookupName store.id_to_name id with
        | some name => keep name
        | none => false) with
    | error e => rw [hsr] at h; cases h
    | ok results =>
      rw [hsr] at h
      cases h
      intro su hsu
      obtain ⟨r, hr, hbody⟩ := List.mem_filterMap.mp hsu
      by_cases hth : r.similarity < th
      · rw [if_pos hth] at hbody; cases hbody
      · rw [if_neg hth] at hbody
        cases hln : lookupName store.id_to_name r.id with
        | none => rw [hln] at hbody; cases hbody
        | some name =>
          rw [hln] at hbody
          have hbody2 : (match get_code_unit store.units name with
              | some unit => some (⟨unit.qualified_name, unit.file_path,
                  unit.range_start, unit.project_id, r.similarity⟩ : SimilarUnit)
              | none => none) = some su := hbody
          cases hgu : get_code_unit store.units name with
          | none => rw [hgu] at hbody2; cases hbody2
          | some u =>
            rw [hgu] at hbody2
            cases hbody2
            have hid : (match lookupName store.id_to_name r.id with
                | some name => keep name
                | none => false) = true :=
              search_filtered_keep dist idx q k _ results hsr r hr
            rw [hln] at hid
            show keep u.qualified_name = true
            rw [get_code_unit_name store.units name u hgu]
            exact hid

theorem annKeep_true (ignored : List (String × String)) (unit : QueryUnit)
    (name : String) (h : annKeep ignored unit name = true) :
    name ≠ unit.qualified_name ∧ (unit.qualified_name, name) ∉ ignored := by
  unfold annKeep at h
  by_cases h1 : name = unit.qualified_name
  · rw [if_pos h1] at h; cases h
  · rw [if_neg h1] at h
    by_cases h2 : (unit.qualified_name, name) ∈ ignored
    · rw [if_pos h2] at h; cases h
    · exact ⟨h1, h2⟩

theorem annCandidate_some (cpid : Option Int) (scope : HookScope)
    (unit : QueryUnit) (su : SimilarUnit) (m : SimilarityMatch)
    (h : annCandidate cpid scope unit su = some m) :
    m.current_name = unit.qualified_name ∧ m.similar_name = su.qualified_name := by
  unfold annCandidate at h
  by_cases h1 : scope = HookScope.CrossOnly ∧ cpid = some su.project_id
  · rw [if_pos h1] at h; cases h
  · rw [if_neg h1] at h
    by_cases h2 : scope = HookScope.Project ∧ cpid.isSome ∧ cpid ≠ some su.project_id
    · rw [if_pos h2] at h; cases h
    · rw [if_neg h2] at h
      cases h
      exact ⟨rfl, rfl⟩

theorem find_similar_units_ann_sound (embed : String → Option (List Nat))
    (dist : List Nat → List Nat → ℚ) (store : Store)
    (queryUnits : List QueryUnit) (cpid : Option Int) (scope : HookScope)
    (threshold : ℚ) (max_results : Nat) (m : SimilarityMatch)
    (hm : m ∈ find_similar_units_ann embed dist store queryUnits cpid scope
      threshold max_results) :
    m.similar_name ≠ m.current_name ∧
    (m.current_name, m.similar_name) ∉ ignoredPairList store.units store.pairs := by
  have heq : find_similar_units_ann embed dist store queryUnits cpid scope
      threshold max_results =
      queryUnits.flatMap fun unit =>
        match embed unit.body with
        | none => []
        | some qemb =>
          match Store.search_similar_filtered dist store qemb
            (Nat.max (max_results * 3) 50) threshold
            (annKeep (ignoredPairList store.units store.pairs) unit) with
          | .error _ => []
          | .ok similar_units =>
            (similar_units.filterMap (annCandidate cpid scope unit)).take max_results := rfl
  rw [heq] at hm
  rw [List.mem_flatMap] at hm
  obtain ⟨unit, _, hm⟩ := hm
  cases hemb : embed unit.body with
  | none => rw [hemb] at hm; cases hm
  | some qemb =>
    rw [hemb] at hm
    have hm2 : m ∈ (match Store.search_similar_filtered dist store qemb
        (Nat.max (max_results * 3) 50) threshold
        (annKeep (ignoredPairList store.units store.pairs) unit) with
      | .error _ => []
      | .ok similar_units =>
        (similar_units.filterMap (annCandidate cpid scope unit)).take max_results) := hm
    cases hsr : Store.search_similar_filtered dist store qemb
        (Nat.max (max_results * 3) 50) threshold
        (annKeep (ignoredPairList store.units store.pairs) unit) with
    | error e => rw [hsr] at hm2; cases hm2
    | ok sus =>
      rw [hsr] at hm2
      have hm' := List.take_subset _ _ hm2
      obtain ⟨su, hsu, hcand⟩ := List.mem_filterMap.mp hm'
      obtain ⟨hc, hs⟩ := annCandidate_some _ _ _ _ _ hcand
      have hkeep := store_search_similar_filtered_keep _ _ _ _ _ _ _ hsr su hsu
      obtain ⟨hneq, hnig⟩ := annKeep_true _ _ _ hkeep
      rw [hc, hs]
      exact ⟨hneq, hnig⟩

/-- Counterexample to C9 as stated: the pair `("d", "q")` is stored with
`status = ignored`, but its endpoint `"q"` is not in `code_units`, so the
inner join of `get_similar_pairs` drops it from the loaded ignored set and
the brute-force matcher returns the `("q", "d")` match anyway. -/
theorem hook_ignored_claim_counterexample :
    ¬ (∀ m ∈ find_similar_units (fun _ => some [1065353216]) (fun _ _ => 1)
        [⟨"d", 1, "f.rs", "function", 3, 9, "ch", "sh", some [0, 0, 128, 63], none⟩]
        [⟨"d", "q", 1, "ignored", none⟩]
        [⟨"q", "body", "g.rs", 5⟩] none HookScope.All 0 3,
        ∀ p ∈ [(⟨"d", "q", 1, "ignored", none⟩ : SimilarPairRow)],
          p.status = "ignored" →
          ¬ ((p.unit_a = m.current_name ∧ p.unit_b = m.similar_name) ∨
             (p.unit_a = m.similar_name ∧ p.unit_b = m.current_name))) := by
  decide

/-- C9 (amended): neither matcher returns a self match, and neither
returns a match whose name pair is stored in `similar_pairs` with
`status = ignored` — in either orientation — provided the stored pair has
non-negative similarity and both its qualified names are present in
`code_units` (the ignored set is loaded through `get_similar_pairs`, whose
join and `similarity >= 0` filter silently drop other ignored rows). -/
theorem hook_matchers_no_self_no_ignored
    (embed : String → Option (List Nat)) (sim dist : List Nat → List Nat → ℚ)
    (store : Store) (units_table : List CodeUnitRow)
    (pairs_table : List SimilarPairRow) (queryUnits : List QueryUnit)
    (cpid : Option Int) (scope : HookScope) (threshold : ℚ) (max_results : Nat) :
    (∀ m ∈ find_similar_units embed sim units_table pairs_table queryUnits
        cpid scope threshold max_results,
      m.similar_name ≠ m.current_name ∧
      ∀ p ∈ pairs_table, p.status = "ignored" → 0 ≤ p.similarity →
        (get_code_unit units_table p.unit_a).isSome →
        (get_code_unit units_table p.unit_b).isSome →
        ¬ (p.unit_a = m.current_name ∧ p.unit_b = m.similar_name) ∧
        ¬ (p.unit_a = m.similar_name ∧ p.unit_b = m.current_name)) ∧
    (∀ m ∈ find_similar_units_ann embed dist store queryUnits cpid scope
        threshold max_results,
      m.similar_name ≠ m.current_name ∧
      ∀ p ∈ store.pairs, p.status = "ignored" → 0 ≤ p.similarity →
        (get_code_unit store.units p.unit_a).isSome →
        (get_code_unit store.units p.unit_b).isSome →
        ¬ (p.unit_a = m.current_name ∧ p.unit_b = m.similar_name) ∧
        ¬ (p.unit_a = m.similar_name ∧ p.unit_b = m.current_name)) := by
  constructor
  · intro m hm
    obtain ⟨hneq, hnig⟩ := find_similar_units_sound embed sim units_table
      pairs_table queryUnits cpid scope threshold max_results m hm
    refine ⟨hneq, ?_⟩
    intro p hp hst hsim ha hb
    obtain ⟨h1, h2⟩ := ignoredPairList_complete units_table pairs_table p hp hst hsim ha hb
    constructor
    · rintro ⟨hpa, hpb⟩
      apply hnig
      rw [← hpa, ← hpb]
      exact h1
    · rintro ⟨hpa, hpb⟩
      apply hnig
      rw [← hpb, ← hpa]
      exact h2
  · intro m hm
    obtain ⟨hneq, hnig⟩ := find_similar_units_ann_sound embed dist store
      queryUnits cpid scope threshold max_results m hm
    refine ⟨hneq, ?_⟩
    intro p hp hst hsim ha hb
    obtain ⟨h1, h2⟩ := ignoredPairList_complete store.units store.pairs p hp hst hsim ha hb
    constructor
    · rintro ⟨hpa, hpb⟩
      apply hnig
      rw [← hpa, ← hpb]
      exact h1
    · rintro ⟨hpa, hpb⟩
      apply hnig
      rw [← hpb, ← hpa]
      exact h2

/-- Witness for the amended C9: with the pair `("d", "q")` ignored and
both endpoints stored, the matcher skips `"d"` and returns only the
`("q", "e")` match, which collides with no ignored pair. -/
theorem hook_matchers_no_self_no_ignored_witness :
    (SimilarityMatch.mk "q" "g.rs" 5 "e" "e.rs" 4 1 true).similar_name ≠
      (SimilarityMatch.mk "q" "g.rs" 5 "e" "e.rs" 4 1 true).current_name ∧
    ∀ p ∈ [(⟨"d", "q", 1, "ignored", none⟩ : SimilarPairRow)],
      p.status = "ignored" → 0 ≤ p.similarity →
      (get_code_unit
        [⟨"d", 1, "f.rs", "function", 3, 9, "cd", "sd", some [0, 0, 128, 63], none⟩,
         ⟨"e", 2, "e.rs", "function", 4, 9, "ce", "se", some [0, 0, 128, 63], none⟩,
         ⟨"q", 1, "g.rs", "function", 5, 9, "cq", "sq", none, none⟩] p.unit_a).isSome →
      (get_code_unit
        [⟨"d", 1, "f.rs", "function", 3, 9, "cd", "sd", some [0, 0, 128, 63], none⟩,
         ⟨"e", 2, "e.rs", "function", 4, 9, "ce", "se", some [0, 0, 128, 63], none⟩,
         ⟨"q", 1, "g.rs", "function", 5, 9, "cq", "sq", none, none⟩] p.unit_b).isSome →
      ¬ (p.unit_a = (SimilarityMatch.mk "q" "g.rs" 5 "e" "e.rs" 4 1 true).current_name ∧
         p.unit_b = (SimilarityMatch.mk "q" "g.rs" 5 "e" "e.rs" 4 1 true).similar_name) ∧
      ¬ (p.unit_a = (SimilarityMatch.mk "q" "g.rs" 5 "e" "e.rs" 4 1 true).similar_name ∧
         p.unit_b = (SimilarityMatch.mk "q" "g.rs" 5 "e" "e.rs" 4 1 true).current_name) :=
  (hook_matchers_no_self_no_ignored (fun _ => some [1065353216]) (fun _ _ => 1)
    (fun _ _ => 0) (Store.mk [] [] none [])
    [⟨"d", 1, "f.rs", "function", 3, 9, "cd", "sd", some [0, 0, 128, 63], none⟩,
     ⟨"e", 2, "e.rs", "function", 4, 9, "ce", "se", some [0, 0, 128, 63], none⟩,
     ⟨"q", 1, "g.rs", "function", 5, 9, "cq", "sq", none, none⟩]
    [⟨"d", "q", 1, "ignored", none⟩]
    [⟨"q", "body", "g.rs", 5⟩] none HookScope.All 0 3).1
    (SimilarityMatch.mk "q" "g.rs" 5 "e" "e.rs" 4 1 true) (by decide)

end Iris
